import Mathlib

/-!
Verification of the PDF text-extraction and chapter-segmentation pipeline of
`src/convert/pdf.rs` (struct `PdfProcessor`).

Shallow embedding conventions:
* Rust `String` / `&str` are modelled as Lean `String`; positions and lengths
  are character counts (byte and character offsets coincide on the ASCII text
  exercised here; `content.len()` is modelled as `String.length`).
* The configured `chapter_regex` is an opaque parameter `chapterMatch :
  String → Bool` standing for `Regex::is_match` of the user pattern.
* The hard-coded regular expressions of the source are translated into
  explicit matchers.  The character classes `\s` and `\d` of the `regex`
  crate are Unicode aware; `\s` (= the White_Space set) is modelled in full,
  `\d` is modelled on its ASCII part (the inputs considered are ASCII).
* Fallible Rust code (`Result`) is modelled with `Except String`.
All definitions are structural recursions so that the kernel can evaluate
them on concrete inputs.
-/

namespace Bookworm

/-- Rust `char::is_whitespace` (the Unicode White_Space property). -/
def rustIsWhitespace (c : Char) : Bool :=
  let n := c.toNat
  (decide (0x9 ≤ n) && decide (n ≤ 0xD)) || decide (n = 0x20) || decide (n = 0x85) ||
  decide (n = 0xA0) || decide (n = 0x1680) ||
  (decide (0x2000 ≤ n) && decide (n ≤ 0x200A)) || decide (n = 0x2028) ||
  decide (n = 0x2029) || decide (n = 0x202F) || decide (n = 0x205F) || decide (n = 0x3000)

/-- Drop leading and trailing Rust whitespace from a character list. -/
def trimChars (cs : List Char) : List Char :=
  ((cs.dropWhile rustIsWhitespace).reverse.dropWhile rustIsWhitespace).reverse

/-- Rust `str::trim`. -/
def rustTrim (s : String) : String :=
  String.mk (trimChars s.data)

/-- Split a character list at every occurrence of `sep` (the pieces do not
contain `sep`; `n` separators yield `n + 1` pieces). -/
def splitOnChar (sep : Char) : List Char → List (List Char)
  | [] => [[]]
  | c :: cs =>
    if c = sep then [] :: splitOnChar sep cs
    else
      match splitOnChar sep cs with
      | h :: t => (c :: h) :: t
      | [] => [[c]]

/-- Strip one trailing carriage return (Rust `lines()` strips a `\r` that
directly precedes the terminating `\n`). -/
def stripCR (l : List Char) : List Char :=
  if l.getLast? = some '\r' then l.dropLast else l

/-- Rust `str::lines`: split on `\n`, strip a `\r` preceding each `\n`, and
do not emit a final empty line when the string ends with `\n`. -/
def rustLines (s : String) : List String :=
  let parts := splitOnChar '\n' s.data
  let n := parts.length
  let parts := parts.enum.map (fun il => if il.1 + 1 < n then stripCR il.2 else il.2)
  let parts :=
    match parts.getLast? with
    | some [] => parts.dropLast
    | _ => parts
  parts.map String.mk

/-- Whether `pat` is a prefix of `cs`. -/
def isPrefixChars : List Char → List Char → Bool
  | [], _ => true
  | _ :: _, [] => false
  | p :: ps, c :: cs => p = c && isPrefixChars ps cs

/-- Fuel-driven core of `replaceChars` (structural so the kernel can run it;
the fuel is always at least the length of the list). -/
def replaceCharsAux (pat repl : List Char) : Nat → List Char → List Char
  | 0, cs => cs
  | _ + 1, [] => []
  | fuel + 1, c :: cs =>
    if pat ≠ [] ∧ isPrefixChars pat (c :: cs) then
      repl ++ replaceCharsAux pat repl fuel ((c :: cs).drop pat.length)
    else c :: replaceCharsAux pat repl fuel cs

/-- Rust `str::replace`: replace every non-overlapping occurrence of `pat`,
left to right. -/
def replaceChars (pat repl cs : List Char) : List Char :=
  replaceCharsAux pat repl cs.length cs

/-- `text[a..b]` on a character list. -/
def sliceStr (cs : List Char) (a b : Nat) : List Char :=
  (cs.take b).drop a

/-- `clean_pdf_text_content`, step that models
`Regex::new(r"\\[0-9]{3}").replace_all(&text, "")`: every backslash followed
by exactly three ASCII digits is deleted (leftmost, non-overlapping). -/
def removeOctal : List Char → List Char
  | '\\' :: a :: b :: c :: rest =>
    if a.isDigit && b.isDigit && c.isDigit then removeOctal rest
    else '\\' :: removeOctal (a :: b :: c :: rest)
  | ch :: rest => ch :: removeOctal rest
  | [] => []

/-- `PdfProcessor::clean_pdf_text_content`: sequential `str::replace` of the
simple escapes, deletion of 3-digit octal escapes, then `trim`. -/
def clean_pdf_text_content (text : String) : String :=
  let t := replaceChars ['\\', '('] ['('] text.data
  let t := replaceChars ['\\', ')'] [')'] t
  let t := replaceChars ['\\', '\\'] ['\\'] t
  let t := replaceChars ['\\', 'n'] ['\n'] t
  let t := replaceChars ['\\', 'r'] ['\r'] t
  let t := replaceChars ['\\', 't'] ['\t'] t
  let t := removeOctal t
  rustTrim (String.mk t)

/-! ### `decode_hex_string`

`decode_hex_string` operates on the *bytes* of the space-stripped input
(`hex_clean.as_bytes().chunks(2)`), so the embedding works on the UTF-8
byte sequence of the string. -/

/-- UTF-8 encoding of one character. -/
def utf8Bytes (c : Char) : List Nat :=
  let n := c.toNat
  if n < 0x80 then [n]
  else if n < 0x800 then [0xC0 + n / 0x40, 0x80 + n % 0x40]
  else if n < 0x10000 then
    [0xE0 + n / 0x1000, 0x80 + n / 0x40 % 0x40, 0x80 + n % 0x40]
  else
    [0xF0 + n / 0x40000, 0x80 + n / 0x1000 % 0x40, 0x80 + n / 0x40 % 0x40, 0x80 + n % 0x40]

/-- Is this byte an ASCII hexadecimal digit? -/
def isHexDigitByte (b : Nat) : Bool :=
  (decide (0x30 ≤ b) && decide (b ≤ 0x39)) ||
  (decide (0x41 ≤ b) && decide (b ≤ 0x46)) ||
  (decide (0x61 ≤ b) && decide (b ≤ 0x66))

/-- Value of an ASCII hexadecimal digit byte. -/
def hexVal (b : Nat) : Nat :=
  if b ≤ 0x39 then b - 0x30 else if b ≤ 0x46 then b - 0x37 else b - 0x57

/-- `u8::from_str_radix(chunk, 16)` on a two-byte chunk: two hex digits, or a
leading `+` sign followed by one hex digit. -/
def hexPairVal (b1 b2 : Nat) : Option Nat :=
  if isHexDigitByte b1 && isHexDigitByte b2 then some (16 * hexVal b1 + hexVal b2)
  else if decide (b1 = 0x2B) && isHexDigitByte b2 then some (hexVal b2)
  else none

/-- `std::str::from_utf8` succeeds on a two-byte chunk iff it is two ASCII
bytes or one two-byte UTF-8 sequence. -/
def validUtf8Pair (b1 b2 : Nat) : Bool :=
  (decide (b1 < 0x80) && decide (b2 < 0x80)) ||
  (decide (0xC2 ≤ b1) && decide (b1 ≤ 0xDF) && decide (0x80 ≤ b2) && decide (b2 ≤ 0xBF))

/-- Rust `u8::is_ascii_graphic`. -/
def isAsciiGraphicByte (b : Nat) : Bool :=
  decide (0x21 ≤ b) && decide (b ≤ 0x7E)

/-- Rust `u8::is_ascii_whitespace` (space, tab, line feed, form feed,
carriage return). -/
def isAsciiWhitespaceByte (b : Nat) : Bool :=
  decide (b = 0x20) || decide (b = 0x09) || decide (b = 0x0A) ||
  decide (b = 0x0C) || decide (b = 0x0D)

/-- The `chunks(2)` loop of `decode_hex_string`: a final chunk of length 1 is
skipped; an undecodable chunk (invalid UTF-8) aborts with an error; a chunk
that is not a hex number, or whose value is neither ASCII graphic nor ASCII
whitespace, is silently dropped. -/
def decodeHexChunks : List Nat → Except String (List Char)
  | [] => .ok []
  | [_] => .ok []
  | b1 :: b2 :: rest =>
    if validUtf8Pair b1 b2 then
      match hexPairVal b1 b2 with
      | some v =>
        match decodeHexChunks rest with
        | .ok cs =>
          .ok (if isAsciiGraphicByte v || isAsciiWhitespaceByte v then Char.ofNat v :: cs else cs)
        | .error e => .error e
      | none => decodeHexChunks rest
    else .error "Invalid UTF-8 in hex string"

/-- `hex_clean.as_bytes()`: the UTF-8 bytes of the input with every space
character removed (`hex_str.replace(' ', "")`). -/
def hexCleanBytes (hexStr : String) : List Nat :=
  (hexStr.data.filter (fun c => c ≠ ' ')).flatMap utf8Bytes

/-- `PdfProcessor::decode_hex_string`. -/
def decode_hex_string (hexStr : String) : Except String String :=
  match decodeHexChunks (hexCleanBytes hexStr) with
  | .ok cs => .ok (String.mk cs)
  | .error e => .error e

/-! ### Chapter detection (`detect_chapters`) -/

/-- Output record of the pipeline (`crate::convert::Chapter`). -/
structure Chapter where
  title : String
  content : String
  page_start : Nat
  page_end : Nat
  deriving DecidableEq

/-- The `PdfProcessor` configuration.  `chapterMatch` stands for
`self.chapter_regex.is_match`. -/
structure PdfProcessor where
  chapterMatch : String → Bool
  min_chapter_length : Nat
  max_pages_per_chapter : Nat
  clean_text : Bool

/-- Index (in the original list) of the last occurrence of `c` in `cs`. -/
def lastIdxOf (c : Char) (cs : List Char) : Nat :=
  match cs.reverse.findIdx? (fun d => d = c) with
  | some k => cs.length - 1 - k
  | none => 0

/-- Model of `Regex::new(r"\n\s*\n\s*\n+").replace_all(text, "\n\n")`.
A leftmost match starts at a `\n` whose maximal whitespace run contains at
least three `\n` and extends (greedily) through the last `\n` of that run;
it is replaced by two newlines.  Fuel-driven structural recursion (the fuel
is at least the list length). -/
def collapseNLAux : Nat → List Char → List Char
  | 0, cs => cs
  | _ + 1, [] => []
  | fuel + 1, c :: cs =>
    if c = '\n' then
      let run := (c :: cs).takeWhile rustIsWhitespace
      if 3 ≤ run.count '\n' then
        '\n' :: '\n' :: collapseNLAux fuel ((c :: cs).drop (lastIdxOf '\n' run + 1))
      else c :: collapseNLAux fuel cs
    else c :: collapseNLAux fuel cs

/-- Model of `Regex::new(r"[ \t]+").replace_all(text, " ")`: collapse every
run of spaces and tabs to a single space.  `inRun` records whether the
previous character belonged to a run. -/
def collapseSpacesAux (inRun : Bool) : List Char → List Char
  | [] => []
  | c :: cs =>
    if c = ' ' || c = '\t' then
      (if inRun then [] else [' ']) ++ collapseSpacesAux true cs
    else c :: collapseSpacesAux false cs

/-- `PdfProcessor::clean_text_content`: identity when cleaning is disabled,
otherwise strip `\r`, collapse 3+ newlines to 2, collapse horizontal
whitespace runs, strip a space after a newline, and trim. -/
def clean_text_content (p : PdfProcessor) (text : String) : String :=
  if p.clean_text = false then text
  else
    let t := text.data.filter (fun c => c ≠ '\r')
    let t := collapseNLAux t.length t
    let t := collapseSpacesAux false t
    let t := replaceChars ['\n', ' '] ['\n'] t
    rustTrim (String.mk t)

/-- The chapter-detector accumulation state: the finished chapters and the
open chapter `(title, content, start_page)` if any. -/
structure DetectState where
  chapters : List Chapter
  current : Option (String × String × Nat)
  deriving DecidableEq

/-- The "finalize previous chapter" block: push the open chapter with the
given `page_end` if its accumulated content reaches the minimum length
(the stored content is cleaned, the check is on the raw content). -/
def finalizeIfLong (p : PdfProcessor) (chapters : List Chapter)
    (cur : Option (String × String × Nat)) (endIdx : Nat) : List Chapter :=
  match cur with
  | some (title, content, startPage) =>
    if p.min_chapter_length ≤ content.length then
      chapters ++ [⟨title, clean_text_content p content, startPage, endIdx⟩]
    else chapters
  | none => chapters

/-- Scan for the first line (among those given) matching the chapter
pattern; returns the line index and the line. -/
def findHeadingAux (p : PdfProcessor) : Nat → List String → Option (Nat × String)
  | _, [] => none
  | i, l :: ls =>
    if p.chapterMatch (rustTrim l) then some (i, l) else findHeadingAux p (i + 1) ls

/-- `lines.iter().take(10)` heading scan of `detect_chapters`. -/
def headingScan (p : PdfProcessor) (lines : List String) : Option (Nat × String) :=
  findHeadingAux p 0 (lines.take 10)

/-- The max-pages split at the end of each page iteration: if a chapter is
open and has spanned at least `max_pages_per_chapter` pages, push it as
`"{title} (Part {n})"` (where `n` counts all chapters emitted so far plus
one) ending at the current page, and reopen with the next part title, empty
content, and the next page as start. -/
def maxSplit (p : PdfProcessor) (st : DetectState) (pageIdx : Nat) : DetectState :=
  match st.current with
  | some (title, content, startPage) =>
    if 0 < p.max_pages_per_chapter ∧ p.max_pages_per_chapter ≤ pageIdx - startPage then
      -- the reopened part number is `chapters.len() + 1` taken *after* the
      -- push, i.e. the old length plus two
      { chapters := st.chapters ++
          [⟨title ++ " (Part " ++ toString (st.chapters.length + 1) ++ ")",
            clean_text_content p content, startPage, pageIdx⟩],
        current := some (title ++ " (Part " ++ toString (st.chapters.length + 1 + 1) ++ ")",
          "", pageIdx + 1) }
    else st
  | none => st

/-- The heading-scan/append phase of one page iteration of
`detect_chapters`: on a heading match, finalize the open chapter (ending on
the previous page) and open a new one titled by the matched line with the
rest of the page as initial content; otherwise append the cleaned page text
to the open chapter (newline-joined) if one is open. -/
def pageCore (p : PdfProcessor) (st : DetectState) (pageIdx : Nat) (pageText : String) :
    DetectState :=
  match headingScan p (rustLines (clean_text_content p pageText)) with
  | some (lineIdx, line) =>
    { chapters := finalizeIfLong p st.chapters st.current (pageIdx - 1),
      current := some (rustTrim line,
        (if lineIdx + 1 < (rustLines (clean_text_content p pageText)).length then
          String.intercalate "\n" ((rustLines (clean_text_content p pageText)).drop (lineIdx + 1))
         else ""),
        pageIdx) }
  | none =>
    match st.current with
    | some (t, content, s) =>
      { chapters := st.chapters,
        current := some (t, (if content = "" then content else content ++ "\n") ++
          clean_text_content p pageText, s) }
    | none => st

/-- One iteration of the page loop of `detect_chapters`: the heading/append
phase followed by the max-pages split check. -/
def processPage (p : PdfProcessor) (st : DetectState) (pageIdx : Nat) (pageText : String) :
    DetectState :=
  maxSplit p (pageCore p st pageIdx pageText) pageIdx

/-- The page loop, starting at page index `i`. -/
def processPagesFrom (p : PdfProcessor) (st : DetectState) (i : Nat) : List String → DetectState
  | [] => st
  | t :: ts => processPagesFrom p (processPage p st i t) (i + 1) ts

/-- `PdfProcessor::detect_chapters`. -/
def detect_chapters (p : PdfProcessor) (pages : List String) : List Chapter :=
  let st := processPagesFrom p ⟨[], none⟩ 0 pages
  let chapters := finalizeIfLong p st.chapters st.current (pages.length - 1)
  if chapters = [] then
    let fullContent := String.intercalate "\n\n" pages
    if p.min_chapter_length ≤ fullContent.length then
      [⟨"Full Document", clean_text_content p fullContent, 0, pages.length - 1⟩]
    else []
  else chapters

/-! ### Per-page extraction (`extract_pages_with_lopdf`) and orchestration

The lopdf `Document` is external; the loop body's per-page outcome
(`self.extract_page_text(&document, object_id)`) is the parameter: one
`Except` per page, in page order. -/

/-- Page post-processing of the extraction loop: a page whose text is
whitespace-only gets a placeholder, a failed page gets a failure placeholder
(per-page failure is non-fatal). -/
def placeholderPage (idx : Nat) (r : Except String String) : String :=
  match r with
  | .ok t => if rustTrim t = "" then "[Page " ++ toString (idx + 1) ++ " - No extractable text]"
             else t
  | .error e => "[Page " ++ toString (idx + 1) ++ " - Text extraction failed: " ++ e ++ "]"

/-- `PdfProcessor::extract_pages_with_lopdf`, parameterized by the per-page
extraction outcomes. -/
def extract_pages_with_lopdf (pageResults : List (Except String String)) :
    Except String (List String) :=
  if pageResults.length = 0 then .error "PDF contains no pages"
  else
    let pages := pageResults.enum.map (fun pr => placeholderPage pr.1 pr.2)
    if pages = [] then .error "No text could be extracted from any page"
    else .ok pages

/-- `PdfProcessor::extract_text_by_pages`: try the per-page extractor, fall
back to the full-text methods (whose outcome is the `fallback` parameter)
only when it fails. -/
def extract_text_by_pages (pageResults : List (Except String String))
    (fallback : Except String (List String)) : Except String (List String) :=
  match extract_pages_with_lopdf pageResults with
  | .ok pages => .ok pages
  | .error _ =>
    match fallback with
    | .ok pages => .ok pages
    | .error e => .error ("All text extraction methods failed. Error: " ++ e)

/-! ### Page segmentation (`intelligent_page_splitting` and helpers)

The hard-coded patterns of the source are translated into explicit
matchers.  Each matcher takes the text suffix starting at the candidate
position and returns the match length.  For these patterns maximal-munch
scanning coincides with the leftmost-first greedy semantics of the `regex`
crate, because each quantified class (`\s`, `\d`) is disjoint from the
literal that follows it. -/

/-- Case-insensitive literal: strip `pat` from the front of `cs`. -/
def ciStrip : List Char → List Char → Option (List Char)
  | [], cs => some cs
  | _ :: _, [] => none
  | p :: ps, c :: cs => if c.toLower = p.toLower then ciStrip ps cs else none

/-- Length and remainder of the maximal run of characters satisfying `f`. -/
def takeRun (f : Char → Bool) : List Char → Nat × List Char
  | [] => (0, [])
  | c :: cs =>
    if f c then
      let nr := takeRun f cs
      (nr.1 + 1, nr.2)
    else (0, c :: cs)

/-- The `\d` class (modelled on its ASCII part; the `regex` crate's `\d`
also covers other Unicode decimal digits, which do not occur in the inputs
considered here). -/
def regexDigit (c : Char) : Bool := c.isDigit

/-- `(?i)page\s+\d+` at the head of `cs`. -/
def matchPageNumAt (cs : List Char) : Option Nat :=
  match ciStrip ("page").data cs with
  | none => none
  | some r1 =>
    let ws := takeRun rustIsWhitespace r1
    if ws.1 = 0 then none
    else
      let ds := takeRun regexDigit ws.2
      if ds.1 = 0 then none else some (4 + ws.1 + ds.1)

/-- `(?i)- \d+ -` at the head of `cs`. -/
def matchDashNumAt (cs : List Char) : Option Nat :=
  match cs with
  | '-' :: ' ' :: rest =>
    let ds := takeRun regexDigit rest
    if ds.1 = 0 then none
    else
      match ds.2 with
      | ' ' :: '-' :: _ => some (2 + ds.1 + 2)
      | _ => none
  | _ => none

/-- `(?i)^\d+\s*$`: anchored at both ends of the text (no `(?m)`), so it
matches iff the whole text is digits followed by whitespace. -/
def matchLoneNumber (cs : List Char) : Bool :=
  let ds := takeRun regexDigit cs
  decide (ds.1 ≠ 0) && ds.2.all rustIsWhitespace

/-- `(?i)page\s+\d+\s+of\s+\d+` at the head of `cs`. -/
def matchPageOfAt (cs : List Char) : Option Nat :=
  match ciStrip ("page").data cs with
  | none => none
  | some r1 =>
    let w1 := takeRun rustIsWhitespace r1
    if w1.1 = 0 then none
    else
      let d1 := takeRun regexDigit w1.2
      if d1.1 = 0 then none
      else
        let w2 := takeRun rustIsWhitespace d1.2
        if w2.1 = 0 then none
        else
          match ciStrip ("of").data w2.2 with
          | none => none
          | some r2 =>
            let w3 := takeRun rustIsWhitespace r2
            if w3.1 = 0 then none
            else
              let d2 := takeRun regexDigit w3.2
              if d2.1 = 0 then none
              else some (4 + w1.1 + d1.1 + w2.1 + 2 + w3.1 + d2.1)

/-- Alternation `(alt₁|alt₂|…)\s+\d+` at the head of `cs`, alternatives
tried in order (regex alternation is leftmost-first). -/
def matchHeadAlt (cs : List Char) : List (List Char) → Option Nat
  | [] => none
  | pre :: rest =>
    match ciStrip pre cs with
    | some r =>
      let ws := takeRun rustIsWhitespace r
      let attempt : Option Nat :=
        if ws.1 = 0 then none
        else
          let ds := takeRun regexDigit ws.2
          if ds.1 = 0 then none else some (pre.length + ws.1 + ds.1)
      match attempt with
      | some k => some k
      | none => matchHeadAlt cs rest
    | none => matchHeadAlt cs rest

/-- `(?i)^(chapter|ch\.?)\s+\d+` at position 0. -/
def matchChapterHead (cs : List Char) : Option Nat :=
  matchHeadAlt cs [("chapter").data, ("ch.").data, ("ch").data]

/-- `(?i)^(section|sec\.?)\s+\d+` at position 0. -/
def matchSectionHead (cs : List Char) : Option Nat :=
  matchHeadAlt cs [("section").data, ("sec.").data, ("sec").data]

/-- `(?i)^(part|pt\.?)\s+\d+` at position 0. -/
def matchPartHead (cs : List Char) : Option Nat :=
  matchHeadAlt cs [("part").data, ("pt.").data, ("pt").data]

/-- `(?i)^\d+\.\s+[A-Z]` at position 0 (`[A-Z]` under `(?i)` also matches
lower-case letters). -/
def matchNumberedItem (cs : List Char) : Option Nat :=
  let ds := takeRun regexDigit cs
  if ds.1 = 0 then none
  else
    match ds.2 with
    | '.' :: r2 =>
      let ws := takeRun rustIsWhitespace r2
      if ws.1 = 0 then none
      else
        match ws.2 with
        | c :: _ => if c.isAlpha then some (ds.1 + 1 + ws.1 + 1) else none
        | [] => none
    | _ => none

/-- `Regex::is_match`: does the pattern match at some position? -/
def existsMatch (m : List Char → Option Nat) : List Char → Bool
  | [] => false
  | c :: cs => (m (c :: cs)).isSome || existsMatch m cs

/-- `Regex::split`: the pieces of text between successive leftmost
non-overlapping matches.  `acc` is the current piece (reversed); the fuel is
at least the list length and every match consumes at least one character. -/
def regexSplitAux (m : List Char → Option Nat) : Nat → List Char → List Char → List (List Char)
  | _, acc, [] => [acc.reverse]
  | 0, acc, cs => [acc.reverse ++ cs]
  | fuel + 1, acc, c :: cs =>
    match m (c :: cs) with
    | some k => acc.reverse :: regexSplitAux m fuel [] ((c :: cs).drop k)
    | none => regexSplitAux m fuel (c :: acc) cs

/-- `PdfProcessor::split_by_pattern`: split at the pattern, trim the pieces,
keep the non-empty ones. -/
def split_by_pattern (m : List Char → Option Nat) (text : String) : List String :=
  ((regexSplitAux m text.data.length [] text.data).map
    (fun l => rustTrim (String.mk l))).filter (fun s => s ≠ "")

/-- `Regex::find_iter` for a `^`-anchored pattern (no `(?m)`): at most one
match, at offset 0. -/
def anchoredMatches (m : List Char → Option Nat) (cs : List Char) : List (Nat × Nat) :=
  match m cs with
  | some k => [(0, k)]
  | none => []

/-- `PdfProcessor::split_by_structural_markers`: lookbehind splitting at the
match start offsets (text before the first match is discarded; the final
segment runs from the last match start to the end). -/
def split_by_structural_markers (text : String) (starts : List Nat) : List String :=
  let cs := text.data
  let lastEnd := match starts.getLast? with | some s => s | none => 0
  let mid := (starts.zip (starts.drop 1)).filterMap (fun ab =>
    let piece := rustTrim (String.mk (sliceStr cs ab.1 ab.2))
    if piece = "" then none else some piece)
  let lastPiece :=
    if lastEnd < cs.length then
      let piece := rustTrim (String.mk (sliceStr cs lastEnd cs.length))
      if piece = "" then [] else [piece]
    else []
  mid ++ lastPiece

/-- One line of `content_based_page_splitting`'s accumulation loop. -/
def densityStep (st : List String × List String × Nat) (line : String) :
    List String × List String × Nat :=
  let pages := st.1
  let currentPage := st.2.1 ++ [line]
  let lineCount := st.2.2 + 1
  let st1 : List String × List String × Nat :=
    if 40 ≤ lineCount then
      if (rustTrim line = "" ∨ (rustTrim line).length < 20) ∧ currentPage ≠ [] then
        (pages ++ [String.intercalate "\n" currentPage], [], 0)
      else (pages, currentPage, lineCount)
    else (pages, currentPage, lineCount)
  if 80 < st1.2.2 ∧ st1.2.1 ≠ [] then
    (st1.1 ++ [String.intercalate "\n" st1.2.1], [], 0)
  else st1

/-- `PdfProcessor::content_based_page_splitting`. -/
def content_based_page_splitting (text : String) : List String :=
  let lines := rustLines text
  if lines.length < 10 then [text]
  else
    let st := lines.foldl densityStep ([], [], 0)
    if st.2.1 ≠ [] then st.1 ++ [String.intercalate "\n" st.2.1] else st.1

/-! #### `character_based_splitting` -/

/-- `text.chars().nth i`. -/
def getCh (cs : List Char) (i : Nat) : Option Char := cs.get? i

/-- The paragraph-break probe loop (`for offset in 0..=500`): at each offset
try `end_pos + offset` forward, then `end_pos - offset` backward, looking
for two consecutive newlines; the first hit is the new boundary. -/
def parProbe (cs : List Char) (endPos : Nat) : Nat → Nat → Option Nat
  | _, 0 => none
  | offset, r + 1 =>
    if endPos + offset < cs.length ∧ getCh cs (endPos + offset) = some '\n' ∧
        getCh cs (endPos + offset + 1) = some '\n' then
      some (endPos + offset)
    else if offset < endPos ∧ getCh cs (endPos - offset) = some '\n' ∧
        getCh cs (endPos - offset + 1) = some '\n' then
      some (endPos - offset)
    else parProbe cs endPos (offset + 1) r

/-- Sentence-ending characters of the sentence probe. -/
def isSentEnd (c : Char) : Bool := c = '.' || c = '!' || c = '?'

/-- `Option` predicate test (false on `none`). -/
def optIs (f : Char → Bool) : Option Char → Bool
  | some c => f c
  | none => false

/-- The sentence-ending probe loop (`for offset in 0..=200`), forward only:
a `.`, `!` or `?` followed by a whitespace character moves the boundary just
past the punctuation. -/
def sentProbe (cs : List Char) (endPos : Nat) : Nat → Nat → Option Nat
  | _, 0 => none
  | offset, r + 1 =>
    if endPos + offset < cs.length ∧ optIs isSentEnd (getCh cs (endPos + offset)) = true ∧
        optIs rustIsWhitespace (getCh cs (endPos + offset + 1)) = true then
      some (endPos + offset + 1)
    else sentProbe cs endPos (offset + 1) r

/-- The boundary adjustment of `character_based_splitting` in the case
`end_pos < text.len()` (there `end_pos = current_pos + 2500`): the paragraph
probe result, then — when the boundary still equals the target — the
sentence probe result. -/
def stepEndCore (cs : List Char) (cur : Nat) : Nat :=
  if (match parProbe cs (cur + 2500) 0 501 with
      | some e => e
      | none => cur + 2500) = cur + 2500 then
    match sentProbe cs (cur + 2500) 0 201 with
    | some e => e
    | none => cur + 2500
  else
    match parProbe cs (cur + 2500) 0 501 with
    | some e => e
    | none => cur + 2500

/-- One iteration of `character_based_splitting`'s boundary computation:
target = 2500 characters, probes only when the tentative boundary is inside
the text, then clamp to the 4000-character hard maximum. -/
def stepEnd (cs : List Char) (cur : Nat) : Nat :=
  min
    (if min (cur + 2500) cs.length < cs.length then stepEndCore cs cur
     else min (cur + 2500) cs.length)
    (cur + 4000)

/-- A successful paragraph probe never moves the boundary back past
`endPos - offset - r` (in particular, starting from offset 0 with 501 steps,
not below `endPos - 500`). -/
theorem parProbe_bound {cs : List Char} {endPos e : Nat} :
    ∀ {r offset : Nat}, parProbe cs endPos offset r = some e → endPos ≤ e + offset + r := by
  intro r
  induction r with
  | zero => intro offset h; simp [parProbe] at h
  | succ r ih =>
    intro offset h
    rw [parProbe] at h
    split at h
    · have he : endPos + offset = e := Option.some.inj h
      omega
    · split at h
      · rename_i hcond
        have he : endPos - offset = e := Option.some.inj h
        have hoff : offset < endPos := hcond.1
        omega
      · have := ih h
        omega

/-- A successful sentence probe moves the boundary strictly forward. -/
theorem sentProbe_gt {cs : List Char} {endPos e : Nat} :
    ∀ {r offset : Nat}, sentProbe cs endPos offset r = some e → endPos < e := by
  intro r
  induction r with
  | zero => intro offset h; simp [sentProbe] at h
  | succ r ih =>
    intro offset h
    rw [sentProbe] at h
    split at h
    · have he : endPos + offset + 1 = e := Option.some.inj h
      omega
    · exact ih h

/-- The probed boundary stays strictly beyond the segment start (it is at
least `cur + 2000`). -/
theorem stepEndCore_gt (cs : List Char) (cur : Nat) : cur < stepEndCore cs cur := by
  unfold stepEndCore
  cases hp : parProbe cs (cur + 2500) 0 501 with
  | some e =>
    have hb := parProbe_bound hp
    simp only [hp]
    split
    · cases hs : sentProbe cs (cur + 2500) 0 201 with
      | some e2 => have := sentProbe_gt hs; simp only [hs]; omega
      | none => simp only [hs]; omega
    · omega
  | none =>
    simp only [hp]
    split
    · cases hs : sentProbe cs (cur + 2500) 0 201 with
      | some e2 => have := sentProbe_gt hs; simp only [hs]; omega
      | none => simp only [hs]; omega
    · omega

/-- The cursor strictly advances: the boundary chosen for a segment starting
strictly inside the text lies strictly beyond the segment start. -/
theorem stepEnd_gt (cs : List Char) (cur : Nat) (h : cur < cs.length) :
    cur < stepEnd cs cur := by
  unfold stepEnd
  have h1 := stepEndCore_gt cs cur
  split <;> omega

/-- The boundary never exceeds the 4000-character hard maximum past the
segment start. -/
theorem stepEnd_le (cs : List Char) (cur : Nat) : stepEnd cs cur ≤ cur + 4000 := by
  unfold stepEnd
  omega

/-- The segment loop of `character_based_splitting`: slice from the cursor
to the computed boundary, keep the trimmed slice when non-empty, continue at
the boundary. -/
def charSplitGo (cs : List Char) (cur : Nat) : List String :=
  if h : cur < cs.length then
    if rustTrim (String.mk (sliceStr cs cur (stepEnd cs cur))) = "" then
      charSplitGo cs (stepEnd cs cur)
    else
      rustTrim (String.mk (sliceStr cs cur (stepEnd cs cur))) :: charSplitGo cs (stepEnd cs cur)
  else []
termination_by cs.length - cur
decreasing_by
  all_goals
    have := stepEnd_gt cs cur h
    omega

/-- `PdfProcessor::character_based_splitting`. -/
def character_based_splitting (text : String) : List String :=
  charSplitGo text.data 0

/-- Method 1 of `intelligent_page_splitting`: split on form feeds, trim,
drop empty segments. -/
def formFeedSplit (text : String) : List String :=
  ((splitOnChar '\x0C' text.data).map (fun l => rustTrim (String.mk l))).filter
    (fun s => s ≠ "")

/-- Method 4 then method 5: content-density estimate, then the
character-budget fallback. -/
def ipsDensity (text : String) : List String :=
  let pages := content_based_page_splitting text
  if 1 < pages.length then pages else character_based_splitting text

/-- One structural-marker attempt of method 3: only when the pattern has
more than two matches (impossible for these `^`-anchored patterns). -/
def tryStructural (m : List Char → Option Nat) (text : String) (next : List String) :
    List String :=
  let ms := anchoredMatches m text.data
  if 2 < ms.length then
    let pages := split_by_structural_markers text (ms.map (fun ab => ab.1))
    if 1 < pages.length then pages else next
  else next

/-- Method 3 of `intelligent_page_splitting`: the four structural patterns
in order. -/
def ipsStructural (text : String) : List String :=
  tryStructural matchChapterHead text
    (tryStructural matchSectionHead text
      (tryStructural matchPartHead text
        (tryStructural matchNumberedItem text (ipsDensity text))))

/-- One page-indicator attempt of method 2: if the pattern matches anywhere,
split by it and accept when more than one page results. -/
def tryIndicator (m : List Char → Option Nat) (text : String) (next : List String) :
    List String :=
  if existsMatch m text.data then
    let pages := split_by_pattern m text
    if 1 < pages.length then pages else next
  else next

/-- The `(?i)^\d+\s*$` indicator: anchored at both ends, so a match covers
the whole text, `Regex::split` yields two empty pieces, and the filtered
page list is empty — this indicator never produces more than one page. -/
def tryLoneNumber (text : String) (next : List String) : List String :=
  if matchLoneNumber text.data then
    let pages := (["", ""].map rustTrim).filter (fun s => s ≠ "")
    if 1 < pages.length then pages else next
  else next

/-- Method 2 of `intelligent_page_splitting`: the four page-indicator
patterns in order. -/
def ipsIndicators (text : String) : List String :=
  tryIndicator matchPageNumAt text
    (tryIndicator matchDashNumAt text
      (tryLoneNumber text
        (tryIndicator matchPageOfAt text (ipsStructural text))))

/-- `PdfProcessor::intelligent_page_splitting`: form-feed split (accepted
when it yields any non-empty segment), then the remaining methods. -/
def intelligent_page_splitting (text : String) : List String :=
  if text.data.contains '\x0C' then
    let pages := formFeedSplit text
    if pages ≠ [] then pages else ipsIndicators text
  else ipsIndicators text

/-! ## Shared lemmas -/

/-- `Char.ofNat` round-trips on small code points. -/
theorem charOfNat_small : ∀ v : Nat, v ≤ 126 → (Char.ofNat v).toNat = v := by decide

/-- `dropWhile` does not lengthen a list. -/
theorem dropWhileLen {α : Type} (p : α → Bool) (l : List α) :
    (l.dropWhile p).length ≤ l.length := by
  induction l with
  | nil => simp
  | cons a tl ih =>
    rw [List.dropWhile_cons]
    split
    · simp; omega
    · simp

/-- Trimming does not lengthen a character list. -/
theorem trimChars_length_le (cs : List Char) : (trimChars cs).length ≤ cs.length := by
  unfold trimChars
  have h1 := dropWhileLen rustIsWhitespace cs
  have h2 := dropWhileLen rustIsWhitespace (cs.dropWhile rustIsWhitespace).reverse
  simp only [List.length_reverse] at *
  omega

/-- Disabled cleaning is the identity (the first branch of
`clean_text_content`). -/
theorem clean_text_content_id (p : PdfProcessor) (s : String) (h : p.clean_text = false) :
    clean_text_content p s = s := by
  unfold clean_text_content
  rw [if_pos h]

/-- Induction on lists two elements at a time. -/
theorem twoStepList {α : Type} {motive : List α → Prop} (h0 : motive [])
    (h1 : ∀ b, motive [b])
    (h2 : ∀ b1 b2 rest, motive rest → motive (b1 :: b2 :: rest)) :
    ∀ l, motive l
  | [] => h0
  | [b] => h1 b
  | b1 :: b2 :: rest => h2 b1 b2 rest (twoStepList h0 h1 h2 rest)

/-- Appending one element preserves a `Chain'` whose relation holds from
every element of the list to the new element. -/
theorem chain_append_one {α : Type} {R : α → α → Prop} (x : α) :
    ∀ l : List α, List.Chain' R l → (∀ y ∈ l, R y x) → List.Chain' R (l ++ [x])
  | [] => by intro _ _; simp
  | [a] => by
    intro _ hall
    simp only [List.cons_append, List.nil_append]
    rw [List.chain'_cons]
    exact ⟨hall a (by simp), List.chain'_singleton x⟩
  | a :: b :: tl => by
    intro hl hall
    rw [List.cons_append, List.cons_append, List.chain'_cons]
    rw [List.chain'_cons] at hl
    exact ⟨hl.1, chain_append_one x (b :: tl) hl.2 fun y hy => hall y (by simp [hy])⟩

/-! ## Claim C9 -/

/-- C9 (confirmed): when the processor's `clean_text` flag is false,
`clean_text_content` is the identity on every input string. -/
theorem clean_text_content_disabled_identity (p : PdfProcessor) (s : String)
    (h : p.clean_text = false) : clean_text_content p s = s :=
  clean_text_content_id p s h

/-- A processor configuration with cleaning disabled. -/
def cfgPlain : PdfProcessor := ⟨fun _ => false, 500, 0, false⟩

/-- Witness for C9 at a concrete string with carriage returns, whitespace
runs and surrounding blanks. -/
theorem clean_text_content_disabled_identity_witness :
    clean_text_content cfgPlain "  a\r\n\n \n\nb  \tc " = "  a\r\n\n \n\nb  \tc " :=
  clean_text_content_disabled_identity cfgPlain _ rfl

/-! ## Claim C6 -/

/-- C6 (corrected): counterexample — the 3-digit octal escape `\101` is
*deleted* by `clean_pdf_text_content`, not decoded to the corresponding
character `A`. -/
theorem clean_pdf_text_octal_removed :
    clean_pdf_text_content "\\101" = "" ∧ ("" : String) ≠ "A" :=
  ⟨by decide, by decide⟩

/-- C6 (corrected, amended): `clean_pdf_text_content` decodes the simple
escapes `\( \) \\ \n \r \t` by sequential substring replacement, deletes
(rather than decodes) every 3-digit octal escape, and trims the result;
on a literal containing every escape form the simple escapes become their
literal characters and the octal escape disappears. -/
theorem clean_pdf_text_escape_decoding :
    clean_pdf_text_content "\\(A\\)\\\\B\\nC\\rD\\tE\\101F" = "(A)\\B\nC\rD\tEF" := by
  decide

/-! ## Claim C10 -/

/-- ASCII hex digit bytes lie between `0` (0x30) and `f` (0x66). -/
theorem isHexDigitByte_range (b : Nat) (h : isHexDigitByte b = true) :
    0x30 ≤ b ∧ b ≤ 0x66 := by
  simp only [isHexDigitByte, Bool.or_eq_true, Bool.and_eq_true, decide_eq_true_eq] at h
  rcases h with (⟨h1, h2⟩ | ⟨h1, h2⟩) | ⟨h1, h2⟩ <;> omega

/-- Characters admitted by the `decode_hex_string` push guard have code
points below 127. -/
theorem hexGuard_le (v : Nat)
    (h : (isAsciiGraphicByte v || isAsciiWhitespaceByte v) = true) : v ≤ 126 := by
  simp only [isAsciiGraphicByte, isAsciiWhitespaceByte, Bool.or_eq_true, Bool.and_eq_true,
    decide_eq_true_eq] at h
  rcases h with ⟨h1, h2⟩ | ((((h | h) | h) | h) | h) <;> omega

/-- Every character of a successful `decodeHexChunks` run is ASCII graphic
or ASCII whitespace. -/
theorem decodeHexChunks_charset :
    ∀ (bs : List Nat) (cs : List Char), decodeHexChunks bs = .ok cs →
      ∀ c ∈ cs, (isAsciiGraphicByte c.toNat || isAsciiWhitespaceByte c.toNat) = true := by
  intro bs
  induction bs using twoStepList with
  | h0 =>
    intro cs h c hc
    simp only [decodeHexChunks, Except.ok.injEq] at h
    subst h
    simp at hc
  | h1 b =>
    intro cs h c hc
    simp only [decodeHexChunks, Except.ok.injEq] at h
    subst h
    simp at hc
  | h2 b1 b2 rest ih =>
    intro cs h c hc
    rw [decodeHexChunks] at h
    split at h
    · cases hv : hexPairVal b1 b2 with
      | some v =>
        rw [hv] at h
        cases hr : decodeHexChunks rest with
        | ok cs' =>
          rw [hr] at h
          simp only [Except.ok.injEq] at h
          subst h
          by_cases hg : (isAsciiGraphicByte v || isAsciiWhitespaceByte v) = true
          · rw [if_pos hg] at hc
            rcases List.mem_cons.mp hc with rfl | hmem
            · rw [charOfNat_small v (hexGuard_le v hg)]
              exact hg
            · exact ih cs' hr c hmem
          · rw [if_neg hg] at hc
            exact ih cs' hr c hc
        | error e => rw [hr] at h; cases h
      | none =>
        rw [hv] at h
        exact ih cs h c hc
    · cases h

/-- Appending a single byte to an even-length byte list does not change the
chunk decoding (the final length-1 chunk is skipped). -/
theorem decodeHexChunks_append_odd (b : Nat) :
    ∀ bs : List Nat, bs.length % 2 = 0 → decodeHexChunks (bs ++ [b]) = decodeHexChunks bs := by
  intro bs
  induction bs using twoStepList with
  | h0 => intro _; rfl
  | h1 b1 => intro h; simp at h
  | h2 b1 b2 rest ih =>
    intro h
    have hr : rest.length % 2 = 0 := by
      simp only [List.length_cons] at h
      omega
    show decodeHexChunks (b1 :: b2 :: (rest ++ [b])) = decodeHexChunks (b1 :: b2 :: rest)
    rw [decodeHexChunks, decodeHexChunks, ih hr]

/-- C10 (confirmed): whenever `decode_hex_string` returns a string, every
character of it is ASCII graphic or ASCII whitespace (other byte values are
silently dropped by the push guard), and an odd trailing hex digit is
ignored rather than causing an error: appending one hex digit to an input
with an even number of bytes leaves the result unchanged. -/
theorem decode_hex_string_charset_and_odd_tail (s : String) (d : Char)
    (hd : isHexDigitByte d.toNat = true)
    (heven : (hexCleanBytes s).length % 2 = 0) :
    (∀ r, decode_hex_string s = .ok r →
      ∀ c ∈ r.data, (isAsciiGraphicByte c.toNat || isAsciiWhitespaceByte c.toNat) = true) ∧
    decode_hex_string (s.push d) = decode_hex_string s := by
  constructor
  · intro r hr c hc
    unfold decode_hex_string at hr
    cases hcc : decodeHexChunks (hexCleanBytes s) with
    | ok cs =>
      rw [hcc] at hr
      simp only [Except.ok.injEq] at hr
      subst hr
      exact decodeHexChunks_charset _ _ hcc c hc
    | error e => rw [hcc] at hr; cases hr
  · have hdnum := isHexDigitByte_range d.toNat hd
    have hdne : (d = ' ') = False := by
      simp only [eq_iff_iff, iff_false]
      intro hEq
      rw [hEq] at hdnum
      have hsp : (' ').toNat = 32 := rfl
      rw [hsp] at hdnum
      omega
    have hbytes : hexCleanBytes (s.push d) = hexCleanBytes s ++ [d.toNat] := by
      unfold hexCleanBytes
      rw [String.data_push, List.filter_append, List.flatMap_append]
      have hfd : [d].filter (fun c => decide (c ≠ ' ')) = [d] := by
        simp [List.filter, hdne]
      rw [hfd]
      have hu : utf8Bytes d = [d.toNat] := by
        unfold utf8Bytes
        rw [if_pos (by omega)]
      simp [hu]
    unfold decode_hex_string
    rw [hbytes, decodeHexChunks_append_odd _ _ heven]

/-- Witness for C10: appending the odd hex digit `4` to `41` does not change
the decoding. -/
theorem decode_hex_string_charset_and_odd_tail_witness :
    decode_hex_string ("41".push '4') = decode_hex_string "41" :=
  (decode_hex_string_charset_and_odd_tail "41" '4' (by decide) (by decide)).2

/-! ## Claim C3 -/

/-- C3 (corrected): counterexample — when content-stream decoding throws for
every page (here: the only page), `extract_pages_with_lopdf` does *not*
return `Failure`: it returns `Success` built from a placeholder page. -/
theorem extract_pages_placeholder_success :
    extract_pages_with_lopdf [Except.error "E"] =
      .ok ["[Page 1 - Text extraction failed: E]"] ∧
    (extract_pages_with_lopdf [Except.error "E"]).isOk = true :=
  ⟨rfl, rfl⟩

/-- C3 (corrected, amended): per-page failures are converted into
placeholder pages; `extract_pages_with_lopdf` fails only when the document
has zero pages, and whenever there is at least one page the orchestrator
uses its result directly and never consults the fallback path. -/
theorem extract_pages_failure_iff_no_pages (rs : List (Except String String))
    (fb : Except String (List String)) :
    ((∃ e, extract_pages_with_lopdf rs = .error e) ↔ rs = []) ∧
    (rs ≠ [] → extract_text_by_pages rs fb = extract_pages_with_lopdf rs) := by
  cases rs with
  | nil =>
    exact ⟨⟨fun _ => rfl, fun _ => ⟨"PDF contains no pages", rfl⟩⟩, fun h => absurd rfl h⟩
  | cons x xs =>
    have hok : extract_pages_with_lopdf (x :: xs) =
        .ok (((x :: xs).enum).map fun pr => placeholderPage pr.1 pr.2) := by
      unfold extract_pages_with_lopdf
      rw [if_neg (by simp)]
      rw [if_neg (by simp [List.enum_cons])]
    refine ⟨⟨?_, ?_⟩, ?_⟩
    · rintro ⟨e, he⟩
      rw [hok] at he
      cases he
    · intro h
      cases h
    · intro _
      unfold extract_text_by_pages
      rw [hok]

/-- Witness for C3: with one failing page, the orchestrator uses the
per-page result and ignores the fallback. -/
theorem extract_pages_failure_iff_no_pages_witness :
    extract_text_by_pages [Except.error "x"] (Except.error "f") =
      extract_pages_with_lopdf [Except.error "x"] :=
  (extract_pages_failure_iff_no_pages [Except.error "x"] (Except.error "f")).2
    (List.cons_ne_nil _ _)

/-! ## Claim C4 -/

/-- C4 (corrected): counterexample — on `"\x0Cpage 1 x page 2 y"` the
form-feed split yields exactly one non-empty segment, and
`intelligent_page_splitting` *accepts* it (the source only requires the
form-feed split to be non-empty), even though the page-indicator method
would have produced two segments. -/
theorem form_feed_one_segment_counterexample :
    (formFeedSplit "\x0Cpage 1 x page 2 y").length = 1 ∧
    intelligent_page_splitting "\x0Cpage 1 x page 2 y" =
      formFeedSplit "\x0Cpage 1 x page 2 y" ∧
    split_by_pattern matchPageNumAt "\x0Cpage 1 x page 2 y" = ["x", "y"] :=
  ⟨by decide, by decide, by decide⟩

/-- C4 (corrected, amended): the methods are tried in the fixed order, but
the form-feed split is accepted as soon as it yields at least *one*
non-empty segment (the other methods require at least two): whenever the
text contains a form feed and the trimmed-nonempty form-feed segments are
not empty, they are returned unchanged. -/
theorem form_feed_single_segment_accepted (text : String)
    (hff : text.data.contains '\x0C' = true) (hne : formFeedSplit text ≠ []) :
    intelligent_page_splitting text = formFeedSplit text := by
  unfold intelligent_page_splitting
  simp only [hff, if_true, if_pos hne]

/-- Witness for C4 at a two-page form-feed text. -/
theorem form_feed_single_segment_accepted_witness :
    intelligent_page_splitting "a\x0Cb" = formFeedSplit "a\x0Cb" :=
  form_feed_single_segment_accepted "a\x0Cb" (by decide) (by decide)

/-! ## Claim C7 -/

/-- Every segment produced by the character-budget loop has at most 4000
characters: the boundary is clamped 4000 characters past the segment start
and trimming only shrinks the slice. -/
theorem charSplitGo_bound :
    ∀ (n : Nat) (cs : List Char) (cur : Nat), cs.length - cur ≤ n →
      ∀ s ∈ charSplitGo cs cur, s.length ≤ 4000 := by
  intro n
  induction n with
  | zero =>
    intro cs cur hle s hs
    rw [charSplitGo, dif_neg (by omega)] at hs
    simp at hs
  | succ n ih =>
    intro cs cur hle s hs
    by_cases h : cur < cs.length
    · rw [charSplitGo, dif_pos h] at hs
      have hrec := ih cs (stepEnd cs cur) (by have := stepEnd_gt cs cur h; omega)
      have hpiece : (rustTrim (String.mk (sliceStr cs cur (stepEnd cs cur)))).length ≤ 4000 := by
        have h1 : (sliceStr cs cur (stepEnd cs cur)).length ≤ 4000 := by
          unfold sliceStr
          have h2 := stepEnd_le cs cur
          have h3 : ((cs.take (stepEnd cs cur)).drop cur).length =
              (cs.take (stepEnd cs cur)).length - cur := List.length_drop cur _
          have h4 : (cs.take (stepEnd cs cur)).length = min (stepEnd cs cur) cs.length :=
            List.length_take _ _
          omega
        have h5 := trimChars_length_le (sliceStr cs cur (stepEnd cs cur))
        show (trimChars (sliceStr cs cur (stepEnd cs cur))).length ≤ 4000
        omega
      split at hs
      · exact hrec s hs
      · rcases List.mem_cons.mp hs with rfl | hmem
        · exact hpiece
        · exact hrec s hmem
    · rw [charSplitGo, dif_neg h] at hs
      simp at hs

/-- C7 (confirmed): for every non-empty input text the character-budget
split's cursor strictly advances on every loop iteration (so the loop
terminates), and no returned segment exceeds 4000 characters. -/
theorem character_splitting_advances_and_bounded (text : String) (hne : text ≠ "") :
    (∀ cur, cur < text.data.length → cur < stepEnd text.data cur) ∧
    ∀ s ∈ character_based_splitting text, s.length ≤ 4000 :=
  ⟨fun cur h => stepEnd_gt text.data cur h,
   fun s hs => charSplitGo_bound text.data.length text.data 0 (by omega) s hs⟩

/-- Witness for C7: on `"hello"` the first boundary lies strictly beyond
position 0. -/
theorem character_splitting_advances_and_bounded_witness :
    0 < stepEnd ("hello").data 0 :=
  (character_splitting_advances_and_bounded "hello" (by decide)).1 0 (by decide)

/-! ## Claim C1 -/

/-- Configuration for the C1 counterexample: minimum length 500, forced
split after one page, cleaning disabled. -/
def cfgShortPart : PdfProcessor := ⟨fun s => s == "CHAPTER", 500, 1, false⟩

/-- C1 (corrected): counterexample — a chapter force-finalized by the
max-pages split is pushed *without* the minimum-length check: with
`min_chapter_length = 500` the detector emits a non-fallback chapter whose
content is the single character `x`. -/
theorem detect_chapters_forced_split_below_min :
    detect_chapters cfgShortPart ["CHAPTER", "x"] = [⟨"CHAPTER (Part 1)", "x", 0, 1⟩] ∧
    ¬ (cfgShortPart.min_chapter_length ≤ ("x" : String).length) ∧
    ("CHAPTER (Part 1)" : String) ≠ "Full Document" :=
  ⟨by decide, by decide, by decide⟩

/-- `maxSplit` is the identity when `max_pages_per_chapter = 0`. -/
theorem maxSplit_zero (p : PdfProcessor) (hmax : p.max_pages_per_chapter = 0)
    (st : DetectState) (i : Nat) : maxSplit p st i = st := by
  unfold maxSplit
  split
  · split
    · rename_i hcond
      rw [hmax] at hcond
      exact absurd hcond.1 (by omega)
    · rfl
  · rfl

/-- With cleaning disabled, every chapter pushed by `finalizeIfLong` keeps
the minimum-length property. -/
theorem finalizeIfLong_min (p : PdfProcessor) (hclean : p.clean_text = false)
    (chapters : List Chapter) (cur : Option (String × String × Nat)) (e : Nat)
    (hch : ∀ c ∈ chapters, p.min_chapter_length ≤ c.content.length) :
    ∀ c ∈ finalizeIfLong p chapters cur e, p.min_chapter_length ≤ c.content.length := by
  cases cur with
  | none => exact hch
  | some tcs =>
    obtain ⟨title, content, startPage⟩ := tcs
    show ∀ c ∈ (if p.min_chapter_length ≤ content.length then
        chapters ++ [⟨title, clean_text_content p content, startPage, e⟩] else chapters),
      p.min_chapter_length ≤ c.content.length
    split
    · rename_i hlen
      intro c hc
      rcases List.mem_append.mp hc with hmem | hmem
      · exact hch c hmem
      · rcases List.mem_singleton.mp hmem with rfl
        show p.min_chapter_length ≤ (clean_text_content p content).length
        rw [clean_text_content_id p content hclean]
        exact hlen
    · exact hch

/-- With no forced splits and cleaning disabled, one page step preserves the
minimum-length property of the emitted chapters. -/
theorem processPage_min (p : PdfProcessor) (hmax : p.max_pages_per_chapter = 0)
    (hclean : p.clean_text = false) (st : DetectState) (i : Nat) (t : String)
    (hst : ∀ c ∈ st.chapters, p.min_chapter_length ≤ c.content.length) :
    ∀ c ∈ (processPage p st i t).chapters, p.min_chapter_length ≤ c.content.length := by
  unfold processPage
  rw [maxSplit_zero p hmax]
  unfold pageCore
  cases hh : headingScan p (rustLines (clean_text_content p t)) with
  | some il =>
    obtain ⟨lineIdx, line⟩ := il
    exact finalizeIfLong_min p hclean st.chapters st.current (i - 1) hst
  | none =>
    cases hc : st.current with
    | some cur => obtain ⟨a, b, c⟩ := cur; exact hst
    | none => exact hst

/-- The page loop preserves the minimum-length property. -/
theorem processPagesFrom_min (p : PdfProcessor) (hmax : p.max_pages_per_chapter = 0)
    (hclean : p.clean_text = false) :
    ∀ (ts : List String) (st : DetectState) (i : Nat),
      (∀ c ∈ st.chapters, p.min_chapter_length ≤ c.content.length) →
      ∀ c ∈ (processPagesFrom p st i ts).chapters, p.min_chapter_length ≤ c.content.length := by
  intro ts
  induction ts with
  | nil => intro st i hst; exact hst
  | cons t ts ih =>
    intro st i hst
    exact ih (processPage p st i t) (i + 1) (processPage_min p hmax hclean st i t hst)

/-- C1 (corrected, amended): the minimum-length invariant holds for
chapters finalized on a new heading, for the chapter finalized after the
page loop, and for the synthetic fallback, *provided* no forced max-pages
split occurs and text cleaning is disabled: chapters force-finalized by the
max-pages split are pushed without the length check, and with cleaning
enabled the stored (cleaned) content may be shorter than the threshold
checked on the raw content. -/
theorem detect_chapters_min_length_no_split (p : PdfProcessor) (pages : List String)
    (hmax : p.max_pages_per_chapter = 0) (hclean : p.clean_text = false) :
    ∀ c ∈ detect_chapters p pages, p.min_chapter_length ≤ c.content.length := by
  have hloop := processPagesFrom_min p hmax hclean pages ⟨[], none⟩ 0 (by simp)
  have hfin := finalizeIfLong_min p hclean _ (processPagesFrom p ⟨[], none⟩ 0 pages).current
    (pages.length - 1) hloop
  simp only [detect_chapters]
  split
  · split
    · rename_i hlen
      intro c hc
      rcases List.mem_singleton.mp hc with rfl
      show p.min_chapter_length ≤ (clean_text_content p (String.intercalate "\n\n" pages)).length
      rw [clean_text_content_id p _ hclean]
      exact hlen
    · intro c hc
      simp at hc
  · exact hfin

/-- Configuration for the C1/C2 witnesses: minimum length 1, no forced
splits, cleaning disabled, no line ever matches the heading pattern. -/
def cfgFallbackW : PdfProcessor := ⟨fun _ => false, 1, 0, false⟩

/-- Witness for C1: on `["ab"]` the single (fallback) chapter meets the
minimum length. -/
theorem detect_chapters_min_length_no_split_witness :
    cfgFallbackW.min_chapter_length ≤ (Chapter.mk "Full Document" "ab" 0 0).content.length :=
  detect_chapters_min_length_no_split cfgFallbackW ["ab"] rfl rfl
    ⟨"Full Document", "ab", 0, 0⟩ (by decide)

/-! ## Claim C5 -/

/-- Configuration for the C5 instance: heading pattern matching the line
`CHAPTER ONE`, minimum length 1, at most 2 pages per chapter. -/
def cfgMaxTwo : PdfProcessor := ⟨fun s => s == "CHAPTER ONE", 1, 2, false⟩

/-- The six-page input of C5: a heading match at page 0 and no further
heading for the 5 subsequent pages; every part's content meets the minimum
length. -/
def pagesMaxTwo : List String :=
  ["CHAPTER ONE\nalpha", "bravo", "charlie", "delta", "echo", "foxtrot"]

/-- C5 (corrected): counterexample — the detector emits 2 part-chapters,
not `ceil(5/2) = 3`, and the second is titled
`CHAPTER ONE (Part 2) (Part 2)` (the part suffix is appended to the already
suffixed reopened title), not `CHAPTER ONE (Part 2)`. -/
theorem max_pages_split_not_three_parts :
    (detect_chapters cfgMaxTwo pagesMaxTwo).length = 2 ∧
    (detect_chapters cfgMaxTwo pagesMaxTwo).map Chapter.title =
      ["CHAPTER ONE (Part 1)", "CHAPTER ONE (Part 2) (Part 2)"] ∧
    (2 : Nat) ≠ 3 :=
  ⟨by decide, by decide, by decide⟩

/-- C5 (corrected, amended): with `max_pages_per_chapter = 2`, a heading at
page 0 and no further heading for the 5 subsequent pages, the detector
force-finalizes after every third page (the split fires once the open
chapter has spanned `>= 2` pages, i.e. covers 3 pages), emitting 2
part-chapters with contiguous, non-overlapping ranges covering pages 0-5;
each forced split sets `page_end` to the current page index and reopens at
the next page; the second title carries a doubled part suffix. -/
theorem max_pages_split_two_parts :
    detect_chapters cfgMaxTwo pagesMaxTwo =
      [⟨"CHAPTER ONE (Part 1)", "alpha\nbravo\ncharlie", 0, 2⟩,
       ⟨"CHAPTER ONE (Part 2) (Part 2)", "delta\necho\nfoxtrot", 3, 5⟩] ∧
    (detect_chapters cfgMaxTwo pagesMaxTwo).map Chapter.page_start = [0, 3] ∧
    (detect_chapters cfgMaxTwo pagesMaxTwo).map Chapter.page_end = [2, 5] :=
  ⟨by decide, by decide, by decide⟩

/-! ## Claim C8 -/

/-- If no given line matches (after trimming), the heading scan fails. -/
theorem findHeadingAux_none (p : PdfProcessor) :
    ∀ (ls : List String) (k : Nat),
      (∀ l ∈ ls, p.chapterMatch (rustTrim l) = false) → findHeadingAux p k ls = none := by
  intro ls
  induction ls with
  | nil => intro k _; rfl
  | cons l ls ih =>
    intro k hall
    unfold findHeadingAux
    rw [hall l (by simp)]
    simp only [Bool.false_eq_true, if_false]
    exact ih (k + 1) fun x hx => hall x (by simp [hx])

/-- A page none of whose cleaned lines matches the pattern leaves the
empty detector state unchanged. -/
theorem processPage_nomatch (p : PdfProcessor) (cs : List Chapter) (i : Nat) (t : String)
    (hnone : ∀ l ∈ rustLines (clean_text_content p t), p.chapterMatch (rustTrim l) = false) :
    processPage p ⟨cs, none⟩ i t = ⟨cs, none⟩ := by
  have hscan : headingScan p (rustLines (clean_text_content p t)) = none := by
    unfold headingScan
    exact findHeadingAux_none p _ 0 fun l hl => hnone l (List.mem_of_mem_take hl)
  simp only [processPage, pageCore, hscan]
  rfl

/-- With no heading match anywhere, the page loop keeps the empty state. -/
theorem processPagesFrom_nomatch (p : PdfProcessor) :
    ∀ (ts : List String) (i : Nat),
      (∀ t ∈ ts, ∀ l ∈ rustLines (clean_text_content p t), p.chapterMatch (rustTrim l) = false) →
      processPagesFrom p ⟨[], none⟩ i ts = ⟨[], none⟩ := by
  intro ts
  induction ts with
  | nil => intro i _; rfl
  | cons t ts ih =>
    intro i hall
    unfold processPagesFrom
    rw [processPage_nomatch p [] i t (hall t (by simp))]
    exact ih (i + 1) fun x hx l hl => hall x (by simp [hx]) l hl

/-- C8 (confirmed): given a non-empty page sequence none of whose (cleaned)
lines matches the heading pattern, with combined blank-line-joined length at
least `min_chapter_length`, `detect_chapters` returns exactly one chapter
titled `Full Document` spanning page 0 to the last page index. -/
theorem detect_chapters_fallback_full_document (p : PdfProcessor) (pages : List String)
    (hne : pages ≠ [])
    (hnomatch : ∀ t ∈ pages, ∀ l ∈ rustLines (clean_text_content p t),
      p.chapterMatch (rustTrim l) = false)
    (hlen : p.min_chapter_length ≤ (String.intercalate "\n\n" pages).length) :
    detect_chapters p pages =
      [⟨"Full Document", clean_text_content p (String.intercalate "\n\n" pages), 0,
        pages.length - 1⟩] := by
  unfold detect_chapters
  rw [processPagesFrom_nomatch p pages 0 hnomatch]
  show (if ([] : List Chapter) = [] then _ else _) = _
  rw [if_pos rfl, if_pos hlen]

/-- Witness for C8 on a single page with no heading match. -/
theorem detect_chapters_fallback_full_document_witness :
    detect_chapters cfgFallbackW ["hello world"] = [⟨"Full Document", "hello world", 0, 0⟩] :=
  (detect_chapters_fallback_full_document cfgFallbackW ["hello world"]
    (List.cons_ne_nil _ _) (fun t _ l _ => rfl) (by decide)).trans (by decide)

/-! ## Claim C2 -/

/-- All chapter start pages are bounded by `n`. -/
def startsLE (cs : List Chapter) (n : Nat) : Prop := ∀ c ∈ cs, c.page_start ≤ n

/-- Chapters appear in non-decreasing `page_start` order. -/
def startsMono (cs : List Chapter) : Prop :=
  List.Chain' (fun a b => a.page_start ≤ b.page_start) cs

/-- Every chapter satisfies `page_start ≤ page_end`. -/
def chapterBounds (cs : List Chapter) : Prop := ∀ c ∈ cs, c.page_start ≤ c.page_end

/-- Relation between the accumulated chapters, the open chapter and the
index `i` of the page about to be processed: all emitted starts are bounded
by the open chapter's start (or by `i` if none is open), the open start does
not lie beyond `i`, and an open chapter whose start *is* `i` was reopened by
a forced split on page `i - 1` and still has empty content. -/
def curOK (st : DetectState) (i : Nat) : Prop :=
  match st.current with
  | none => startsLE st.chapters i
  | some (_, content, s) => startsLE st.chapters s ∧ s ≤ i ∧ (s = i → content = "")

/-- The loop invariant of `detect_chapters`, holding before each page. -/
def detInv (st : DetectState) (i : Nat) : Prop :=
  startsMono st.chapters ∧ chapterBounds st.chapters ∧ curOK st i

/-- The weaker relation holding between the heading/append phase and the
max-pages split of the same page iteration. -/
def curMid (st : DetectState) (i : Nat) : Prop :=
  match st.current with
  | none => startsLE st.chapters i
  | some (_, _, s) => startsLE st.chapters s ∧ s ≤ i

/-- Finalizing the open chapter preserves order and bounds when the minimum
length is positive: a chapter can only pass the length check if its content
is non-empty, hence it was opened strictly before page `i` and its
`page_end = i - 1` is not below its start. -/
theorem finalizeIfLong_ordered (p : PdfProcessor) (hmin : 1 ≤ p.min_chapter_length)
    (st : DetectState) (i : Nat) (h : detInv st i) :
    startsMono (finalizeIfLong p st.chapters st.current (i - 1)) ∧
    chapterBounds (finalizeIfLong p st.chapters st.current (i - 1)) ∧
    startsLE (finalizeIfLong p st.chapters st.current (i - 1)) i := by
  obtain ⟨hmono, hbounds, hcur⟩ := h
  cases hc : st.current with
  | none =>
    simp only [curOK, hc] at hcur
    exact ⟨hmono, hbounds, fun c hm => le_trans (hcur c hm) (by omega)⟩
  | some tcs =>
    obtain ⟨title, content, s⟩ := tcs
    simp only [curOK, hc] at hcur
    obtain ⟨hle, hsi, hempty⟩ := hcur
    show startsMono (if p.min_chapter_length ≤ content.length then
        st.chapters ++ [⟨title, clean_text_content p content, s, i - 1⟩] else st.chapters) ∧
      chapterBounds (if p.min_chapter_length ≤ content.length then
        st.chapters ++ [⟨title, clean_text_content p content, s, i - 1⟩] else st.chapters) ∧
      startsLE (if p.min_chapter_length ≤ content.length then
        st.chapters ++ [⟨title, clean_text_content p content, s, i - 1⟩] else st.chapters) i
    split
    · rename_i hlen
      have hsc : s ≤ i - 1 := by
        have hcne : content ≠ "" := by
          intro hcon
          rw [hcon] at hlen
          have : ("" : String).length = 0 := rfl
          omega
        have hne : s ≠ i := fun hEq => hcne (hempty hEq)
        omega
      refine ⟨?_, ?_, ?_⟩
      · exact chain_append_one _ _ hmono fun y hy => hle y hy
      · intro c hcm
        rcases List.mem_append.mp hcm with hm | hm
        · exact hbounds c hm
        · rcases List.mem_singleton.mp hm with rfl
          exact hsc
      · intro c hcm
        rcases List.mem_append.mp hcm with hm | hm
        · exact le_trans (hle c hm) hsi
        · rcases List.mem_singleton.mp hm with rfl
          exact hsi
    · exact ⟨hmono, hbounds, fun c hm => le_trans (hle c hm) hsi⟩

/-- The heading/append phase preserves order, bounds and the mid-iteration
relation. -/
theorem pageCore_inv (p : PdfProcessor) (hmin : 1 ≤ p.min_chapter_length)
    (st : DetectState) (i : Nat) (t : String) (h : detInv st i) :
    startsMono (pageCore p st i t).chapters ∧ chapterBounds (pageCore p st i t).chapters ∧
    curMid (pageCore p st i t) i := by
  obtain ⟨hmono, hbounds, hcur⟩ := h
  unfold pageCore
  cases hh : headingScan p (rustLines (clean_text_content p t)) with
  | some il =>
    obtain ⟨lineIdx, line⟩ := il
    have hfin := finalizeIfLong_ordered p hmin st i ⟨hmono, hbounds, hcur⟩
    exact ⟨hfin.1, hfin.2.1, hfin.2.2, le_refl i⟩
  | none =>
    cases hc : st.current with
    | some tcs =>
      obtain ⟨tt, content, s⟩ := tcs
      simp only [curOK, hc] at hcur
      exact ⟨hmono, hbounds, hcur.1, hcur.2.1⟩
    | none =>
      simp only [curOK, hc] at hcur
      refine ⟨hmono, hbounds, ?_⟩
      simp only [curMid, hc]
      exact hcur

/-- Unfolding equation for `maxSplit` with no open chapter. -/
theorem maxSplit_none (p : PdfProcessor) (st : DetectState) (i : Nat)
    (hc : st.current = none) : maxSplit p st i = st := by
  unfold maxSplit
  rw [hc]

/-- Unfolding equation for `maxSplit` with an open chapter. -/
theorem maxSplit_some (p : PdfProcessor) (st : DetectState) (i : Nat)
    (title content : String) (s : Nat) (hc : st.current = some (title, content, s)) :
    maxSplit p st i =
      if 0 < p.max_pages_per_chapter ∧ p.max_pages_per_chapter ≤ i - s then
        { chapters := st.chapters ++
            [⟨title ++ " (Part " ++ toString (st.chapters.length + 1) ++ ")",
              clean_text_content p content, s, i⟩],
          current := some (title ++ " (Part " ++ toString (st.chapters.length + 1 + 1) ++ ")",
            "", i + 1) }
      else st := by
  unfold maxSplit
  rw [hc]

/-- The max-pages split preserves the invariant into the next page index:
a force-finalized chapter ends at the current page (not before its start)
and the reopened chapter starts at the next page with empty content. -/
theorem maxSplit_inv (p : PdfProcessor) (st : DetectState) (i : Nat)
    (hmono : startsMono st.chapters) (hbounds : chapterBounds st.chapters)
    (hcur : curMid st i) : detInv (maxSplit p st i) (i + 1) := by
  cases hc : st.current with
  | none =>
    simp only [curMid, hc] at hcur
    rw [maxSplit_none p st i hc]
    refine ⟨hmono, hbounds, ?_⟩
    simp only [curOK, hc]
    exact fun c hm => le_trans (hcur c hm) (Nat.le_succ i)
  | some tcs =>
    obtain ⟨title, content, s⟩ := tcs
    simp only [curMid, hc] at hcur
    obtain ⟨hle, hsi⟩ := hcur
    rw [maxSplit_some p st i title content s hc]
    by_cases hcond : 0 < p.max_pages_per_chapter ∧ p.max_pages_per_chapter ≤ i - s
    · rw [if_pos hcond]
      refine ⟨?_, ?_, ?_⟩
      · exact chain_append_one _ _ hmono fun y hy => hle y hy
      · intro c hm
        rcases List.mem_append.mp hm with hm | hm
        · exact hbounds c hm
        · rcases List.mem_singleton.mp hm with rfl
          exact hsi
      · refine ⟨?_, le_refl _, fun _ => rfl⟩
        intro c hm
        rcases List.mem_append.mp hm with hm | hm
        · exact le_trans (hle c hm) (by omega)
        · rcases List.mem_singleton.mp hm with rfl
          show s ≤ i + 1
          omega
    · rw [if_neg hcond]
      refine ⟨hmono, hbounds, ?_⟩
      simp only [curOK, hc]
      exact ⟨hle, by omega, fun hEq => absurd hEq (by omega)⟩

/-- One full page iteration preserves the invariant. -/
theorem processPage_inv (p : PdfProcessor) (hmin : 1 ≤ p.min_chapter_length)
    (st : DetectState) (i : Nat) (t : String) (h : detInv st i) :
    detInv (processPage p st i t) (i + 1) := by
  have hmid := pageCore_inv p hmin st i t h
  exact maxSplit_inv p _ i hmid.1 hmid.2.1 hmid.2.2

/-- The page loop preserves the invariant up to the final page index. -/
theorem processPagesFrom_inv (p : PdfProcessor) (hmin : 1 ≤ p.min_chapter_length) :
    ∀ (ts : List String) (st : DetectState) (i : Nat), detInv st i →
      detInv (processPagesFrom p st i ts) (i + ts.length) := by
  intro ts
  induction ts with
  | nil => intro st i h; simpa using h
  | cons t ts ih =>
    intro st i h
    have hrec := ih (processPage p st i t) (i + 1) (processPage_inv p hmin st i t h)
    show detInv (processPagesFrom p (processPage p st i t) (i + 1) ts) (i + (t :: ts).length)
    have harith : i + 1 + ts.length = i + (t :: ts).length := by simp; omega
    rw [← harith]
    exact hrec

/-- C2 (corrected, amended): provided `min_chapter_length ≥ 1`, every
chapter list returned by `detect_chapters` has `page_start ≤ page_end`
for every chapter and non-decreasing `page_start` across the sequence.
(With `min_chapter_length = 0` a chapter finalized by a heading on the page
right after a forced-split reopening has `page_start = page_end + 1`.) -/
theorem detect_chapters_page_ordering (p : PdfProcessor) (pages : List String)
    (hmin : 1 ≤ p.min_chapter_length) :
    List.Chain' (fun a b => a.page_start ≤ b.page_start) (detect_chapters p pages) ∧
    ∀ c ∈ detect_chapters p pages, c.page_start ≤ c.page_end := by
  have h0 : detInv ⟨[], none⟩ 0 := by
    refine ⟨List.chain'_nil, fun c hm => absurd hm (by simp), ?_⟩
    show startsLE [] 0
    exact fun c hm => absurd hm (by simp)
  have hinv : detInv (processPagesFrom p ⟨[], none⟩ 0 pages) pages.length := by
    have := processPagesFrom_inv p hmin pages ⟨[], none⟩ 0 h0
    simpa using this
  have hfin := finalizeIfLong_ordered p hmin _ pages.length hinv
  simp only [detect_chapters]
  split
  · split
    · refine ⟨List.chain'_singleton _, ?_⟩
      intro c hm
      rcases List.mem_singleton.mp hm with rfl
      show (0 : Nat) ≤ pages.length - 1
      omega
    · exact ⟨List.chain'_nil, fun c hm => absurd hm (by simp)⟩
  · exact ⟨hfin.1, hfin.2.1⟩

/-- Witness for C2: the fallback chapter of a one-page run satisfies the
bounds. -/
theorem detect_chapters_page_ordering_witness :
    (Chapter.mk "Full Document" "ab" 0 0).page_start ≤
      (Chapter.mk "Full Document" "ab" 0 0).page_end :=
  (detect_chapters_page_ordering cfgFallbackW ["ab"] (by decide)).2
    ⟨"Full Document", "ab", 0, 0⟩ (by decide)

/-- Configuration for the C2 counterexample: minimum length 0, forced split
after one page. -/
def cfgZeroMin : PdfProcessor := ⟨fun s => s == "CHAPTER", 0, 1, false⟩

/-- C2 (corrected): counterexample — with `min_chapter_length = 0` a heading
on the page right after a forced-split reopening finalizes the reopened
(empty) chapter with `page_start = 2 > page_end = 1`. -/
theorem detect_chapters_page_start_exceeds_end_at_zero_min :
    ¬ ∀ c ∈ detect_chapters cfgZeroMin ["CHAPTER", "x", "CHAPTER"],
      c.page_start ≤ c.page_end := by
  decide

end Bookworm
